import Mathlib

/-!
Verification development for the MCP_Dev passive-skill-tree pipeline.

This file gives a shallow embedding, in Lean 4, of the tree-normalization
ETL (`scripts/load_tree401.py`, `scripts/parse_poe2_tree.py`,
`scripts/tree_loader.py`, `scripts/tree_etl.py`) and of the greedy path
optimizer (`src/api/optimizer.py`), and proves or refutes the behavioural
claims about them.

Modelling conventions:
* Python `str` values are Lean `String`s; Python's `in`, `.lower()`,
  `.startswith()` on strings are modelled by code-point-list operations
  (a Python `str` is a sequence of code points).
* Python `int` is `Int` (no machine overflow is involved anywhere here);
  Python `float` effect values and scores are modelled as `ℚ` — no claim
  in scope depends on floating-point rounding.
* SQLite tables touched inside one transaction are modelled as the list of
  executed insert statements (`Write`); a connection carries a `durable`
  store (what committed readers see) and a `pending` store.
* Python `dict`s are association lists, `set`s are duplicate-free lists in
  insertion order.  The claims proved below are insensitive to the
  iteration order of Python's hash-based `set`.
-/

/-! ## String helpers (Python `in`, `.lower()`, `.startswith()`) -/

/-- Python `needle in hay` on strings, on code-point lists. -/
def strContains : List Char → List Char → Bool
  | [], needle => needle.isEmpty
  | h :: t, needle => needle.isPrefixOf (h :: t) || strContains t needle

/-- Python `needle in hay` for `String`s. -/
def strContainsS (hay needle : String) : Bool :=
  strContains hay.toList needle.toList

/-- Python `s.startswith(p)`. -/
def strStartsWithS (s p : String) : Bool :=
  p.toList.isPrefixOf s.toList

/-- Python `s.lower()` (code-point-wise; ASCII suffices for the strings the
pipeline compares). -/
def strLowerS (s : String) : String :=
  String.mk (s.toList.map Char.toLower)

/-- Python `s.strip()`: drop whitespace from both ends. -/
def strTrim (s : String) : String :=
  String.mk
    (((s.toList.dropWhile Char.isWhitespace).reverse.dropWhile
      Char.isWhitespace).reverse)

/-- Python truthiness of an optional string (`None` and `""` are falsy). -/
def pyTruthyStr (o : Option String) : Bool :=
  (o.getD "") ≠ ""

/-! ## Raw-document data model

Shapes of the JSON consumed by the loaders: nodes carry a skill reference,
a parent/group reference, a position encoding and a raw connection list. -/

/-- A raw connection entry: bare id, or a `{id, radius}` record
(`radius` key may be absent). -/
inductive RawConn where
  | bare (id : Int)
  | conn (id : Int) (radius : Option Int)
deriving DecidableEq, Repr

/-- Target id of a raw connection (`int(c.get("id", c)) if isinstance(c, dict)
else int(c)`). -/
def RawConn.cid : RawConn → Int
  | .bare i => i
  | .conn i _ => i

/-- Radius of a raw connection (`c.get('radius', 0)` for dict entries, `0`
for bare ids), as in `parse_poe2_tree`. -/
def RawConn.crad : RawConn → Int
  | .bare _ => 0
  | .conn _ r => r.getD 0

/-- The position encoding found on a raw node: nested dict (whose `x`/`y`
keys may be absent), list/tuple, bare orbit index, or absent. -/
inductive RawPos where
  | pdict (x y : Option Int)
  | plist (xs : List Int)
  | pint (k : Int)
  | pnone
deriving DecidableEq, Repr

/-- A spatial-anchor group record (`x`/`y` keys may be absent). -/
structure GroupRec where
  x : Option Int := none
  y : Option Int := none
deriving DecidableEq, Repr

/-- A raw tree node as read from the JSON document. -/
structure RawNode where
  skill_id : Option String := none
  parent : Option Int := none
  group : Option Int := none
  position : RawPos := .pnone
  x : Option Int := none
  y : Option Int := none
  connections : List RawConn := []
  orbitIndex : Option Int := none
deriving DecidableEq, Repr

/-- An effect-catalog stat entry: a bare string key, or a keyed record with
a representative numeric value. -/
inductive StatEntry where
  | sstr (k : String)
  | sdict (k : String) (v : ℚ)
deriving DecidableEq, Repr

/-- A skill-catalog entry (`passive_skills[skill_id]`); absent boolean keys
are falsy, hence `Bool` fields defaulting to `false`. -/
structure SkillDetails where
  name : Option String := none
  description : Option String := none
  ascendancy : Option String := none
  is_keystone : Bool := false
  is_notable : Bool := false
  is_just_icon : Bool := false
  is_multiple_choice : Bool := false
  stats : List StatEntry := []
deriving DecidableEq, Repr

instance : Inhabited SkillDetails := ⟨{}⟩

/-- A raw tree document: `passive_tree.groups`, `passive_tree.nodes`,
`passive_tree.root_passives` and the `passive_skills` catalog. -/
structure RawDoc where
  groups : List (Int × GroupRec) := []
  nodes : List (Int × RawNode) := []
  root_passives : List Int := []
  skills : List (String × SkillDetails) := []
deriving DecidableEq, Repr

/-! ## Node classification (`compute_node_type`)

Three divergent copies exist in the source; all are embedded. -/

/-- Model of `compute_node_type` from `scripts/load_tree401.py` (also the inline
classification chain of `scripts/parse_poe2_tree.py` steps through the same
first three branches): strict first-match-wins priority order. -/
def compute_node_type (skill_id : String) (details : SkillDetails) : String :=
  if strStartsWithS skill_id "Ascendancy" then "Ascendancy"
  else if details.is_keystone then "Keystone"
  else if details.is_notable then "Notable"
  else if details.is_just_icon then "Mastery"
  else if details.is_multiple_choice then "Choice"
  else if strContainsS (strLowerS skill_id) "socket" then "Jewel Socket"
  else if strContainsS skill_id "Start" then "Start"
  else if strContainsS skill_id "Small" then "Small"
  else "Regular"

/-- The inline node-type chain of `scripts/parse_poe2_tree.py` (it lacks the
`is_multiple_choice → Choice` branch of the `load_tree401` copy). -/
def parse_node_type (skill_id : String) (details : SkillDetails) : String :=
  if strStartsWithS skill_id "Ascendancy" then "Ascendancy"
  else if details.is_keystone then "Keystone"
  else if details.is_notable then "Notable"
  else if details.is_just_icon then "Mastery"
  else if strContainsS (strLowerS skill_id) "socket" then "Jewel Socket"
  else if strContainsS skill_id "Start" then "Start"
  else if strContainsS skill_id "Small" then "Small"
  else "Regular"

/-- A PoB-shaped node as consumed by `scripts/tree_loader.py`'s
`compute_node_type` (classification flags live on the node itself). -/
structure LoaderNode where
  ascendancyName : Option String := none
  isKeystone : Bool := false
  isNotable : Bool := false
  options : List Int := []
  isAscendancyStart : Bool := false
deriving DecidableEq, Repr

/-- Model of `compute_node_type` from `scripts/tree_loader.py`. -/
def compute_node_type_loader (n : LoaderNode) : String :=
  if pyTruthyStr n.ascendancyName then "Ascendancy"
  else if n.isKeystone then "Keystone"
  else if n.isNotable then "Notable"
  else if ¬ n.options.isEmpty then "Choice"
  else if n.isAscendancyStart then "Start"
  else "Regular"

/-! ## Edge mirroring (`mirror_edges`)

`mirror_edges` in both `scripts/load_tree401.py` and
`scripts/tree_loader.py` runs one SQL pass inserting, for every stored edge
`(from, to)` of the version, the reverse row `(to, from)` when it is not
already present.  The per-version `node_edges` table is a set of ordered
pairs (the whole row is the conflict key, and `INSERT OR REPLACE` /
`INSERT OR IGNORE` make re-insertion a no-op). -/

/-- One SQL mirroring pass over a version's edge set. -/
def mirror_edges (E : Finset (Int × Int)) : Finset (Int × Int) :=
  E ∪ (E.image Prod.swap).filter (fun p => p ∉ E)


/-! ## Position resolution -/

/-- Model of `extract_position` from `scripts/load_tree401.py`: nested dict, then
list/tuple of length ≥ 2, then numeric orbit index resolved to the parent
group's centre, then flat `x`/`y`; raises `ValueError` when either
coordinate is still missing. -/
def extract_position401 (n : RawNode) (groups : List (Int × GroupRec)) :
    Except Unit (Int × Int) :=
  let rxy : Option Int × Option Int :=
    match n.position with
    | .pdict px py => (px, py)
    | .plist xs =>
      match xs with
      | a :: b :: _ => (some a, some b)
      | _ => (n.x, n.y)
    | .pint _ =>
      let grp := (n.parent.bind (fun p => groups.lookup p)).getD {}
      (grp.x, grp.y)
    | .pnone => (n.x, n.y)
  match rxy with
  | (some rx, some ry) => .ok (rx, ry)
  | _ => .error ()

/-- Model of `extract_position` from `scripts/tree_loader.py`: nested dict with both
keys, then flat `x`/`y`, then group lookup, then a `(0, 0)` fallback — this
copy is total and never excludes a node. -/
def extract_position_loader (n : RawNode) (groups : List (Int × GroupRec)) :
    Int × Int :=
  match n.position with
  | .pdict (some px) (some py) => (px, py)
  | _ =>
    match n.x, n.y with
    | some rx, some ry => (rx, ry)
    | _, _ =>
      let grp := (n.group.bind (fun g => groups.lookup g)).getD {}
      match grp.x, grp.y with
      | some gx, some gy => (gx, gy)
      | _, _ => (0, 0)

/-! ## The versioned store as executed SQL statements

A transaction is modelled as the list of insert statements executed on the
connection.  `edge_errors` rows are representable (`Write.edgeError`
mirrors the `EDGE_ERROR_SQL` template declared in `load_tree401.py`) so
that "the ledger stays empty" is a meaningful statement about the
pipeline. -/

/-- One executed SQL insert (or the mirroring statement). -/
inductive Write where
  | rawTree (vid : Int)
  | node (nid vid x y : Int) (ntype name : String) (is_playable : Bool)
  | nodeError (vid nid : Int) (kind : String)
  | edge (fromId toId vid : Int)
  | edgeError (vid fromId toId : Int) (kind : String) (rawRadius : Int)
  | effect (nid : Int) (key : String) (value : ℚ) (vid : Int)
  | startingNode (vid nid : Int) (cls : String)
  | ascVersion
  | rawAsc (vid : Int)
  | ascNode (asc : String) (nid vid : Int)
  | mirror (vid : Int)
deriving DecidableEq, Repr

/-- Whether a statement inserts into the `edge_errors` ledger. -/
def Write.isEdgeErr : Write → Bool
  | .edgeError .. => true
  | _ => false

/-! ## Loaders of `scripts/load_tree401.py` -/

/-- Model of `load_nodes`: per node, record `missing_skill` when the skill reference
is non-empty but absent from the catalog; resolve the position, and on
failure record `missing_position` **and re-raise**, aborting the whole load
(`some ()` in the second component signals the propagated exception). -/
def loadNodes401 (vid : Int) (skills : List (String × SkillDetails))
    (groups : List (Int × GroupRec)) :
    List (Int × RawNode) → List Write × Option Unit
  | [] => ([], none)
  | (nid, n) :: rest =>
    let sid := n.skill_id.getD ""
    let det := (skills.lookup sid).getD default
    let missW : List Write :=
      if sid ≠ "" ∧ skills.lookup sid = none then
        [.nodeError vid nid "missing_skill"] else []
    match extract_position401 n groups with
    | .error _ => (missW ++ [.nodeError vid nid "missing_position"], some ())
    | .ok (x, y) =>
      let name := det.name.getD ""
      let w : Write := .node nid vid x y (compute_node_type sid det) name
        ((strTrim name != "") && !(strStartsWithS name "[DNT-UNUSED]"))
      let r := loadNodes401 vid skills groups rest
      (missW ++ w :: r.1, r.2)

/-- Model of `load_edges` from `scripts/load_tree401.py`: every raw connection of
every node becomes an edge row verbatim — no self-loop check, no radius
handling, no `edge_errors` write. -/
def loadEdges401 (vid : Int) (nodes : List (Int × RawNode)) : List Write :=
  nodes.flatMap (fun p => p.2.connections.map (fun c => .edge p.1 c.cid vid))

/-- Model of `load_effects`: one `node_effects` row per stat entry of the node's
catalog entry (bare string keys get value `0`). -/
def loadEffects401 (vid : Int) (skills : List (String × SkillDetails))
    (nodes : List (Int × RawNode)) : List Write :=
  nodes.flatMap (fun p =>
    (((skills.lookup (p.2.skill_id.getD "")).getD default).stats).map (fun st =>
      match st with
      | .sstr k => .effect p.1 k 0 vid
      | .sdict k v => .effect p.1 k v vid))

/-- Model of `load_starting_nodes`: per root id, skip on unresolvable position
(`except: continue` — unlike `load_nodes`); class label from the catalog's
`ascendancy` field, defaulting to `"Passive"`. -/
def loadStarting401 (vid : Int) (doc : RawDoc) : List Write :=
  doc.root_passives.filterMap (fun nid =>
    let n := (doc.nodes.lookup nid).getD {}
    match extract_position401 n doc.groups with
    | .error _ => none
    | .ok _ =>
      let sid := n.skill_id.getD ""
      let a := (((doc.skills.lookup sid).getD default).ascendancy).getD ""
      some (.startingNode vid nid (if a = "" then "Passive" else a)))

/-- Model of `load_ascendancy_nodes`: only ascendancy-prefixed skill references;
skip on unresolvable position (`except: continue`). -/
def loadAsc401 (ascVid : Int) (doc : RawDoc) : List Write :=
  doc.nodes.filterMap (fun p =>
    let sid := p.2.skill_id.getD ""
    if strStartsWithS sid "Ascendancy" then
      match extract_position401 p.2 doc.groups with
      | .error _ => none
      | .ok _ =>
        some (.ascNode ((((doc.skills.lookup sid).getD default).ascendancy).getD "")
          p.1 ascVid)
    else none)

/-- The statements executed by the `try:` body of `main` in
`scripts/load_tree401.py`, in program order, together with the propagated
exception if one was raised.  An exception inside `load_nodes` aborts the
body; the later loaders never run. -/
def body401 (vid ascVid : Int) (doc : RawDoc) : List Write × Option Unit :=
  let pre : List Write := [.ascVersion, .rawAsc ascVid, .rawTree vid]
  let r := loadNodes401 vid doc.skills doc.groups doc.nodes
  match r.2 with
  | some e => (pre ++ r.1, some e)
  | none =>
    (pre ++ r.1 ++ loadEdges401 vid doc.nodes ++ [.mirror vid]
       ++ loadEffects401 vid doc.skills doc.nodes
       ++ loadStarting401 vid doc
       ++ loadAsc401 ascVid doc, none)

/-! ## The connection / transaction model -/

/-- A SQLite connection: `durable` is what committed readers of the store
see, `pending` is the state inside the open transaction. -/
structure Conn where
  durable : List Write
  pending : List Write
deriving DecidableEq, Repr

/-- An operation performed on the connection. -/
inductive Op where
  | exec (w : Write)
  | commit
  | rollback
deriving DecidableEq, Repr

/-- Effect of one operation: `exec` only touches the pending transaction;
`commit` publishes it; `rollback` discards it. -/
def applyOp (c : Conn) : Op → Conn
  | .exec w => { c with pending := c.pending ++ [w] }
  | .commit => { durable := c.pending, pending := c.pending }
  | .rollback => { durable := c.durable, pending := c.durable }

/-- Run a sequence of connection operations. -/
def runOps (c : Conn) (ops : List Op) : Conn :=
  ops.foldl applyOp c

/-- The operation trace of `main` in `scripts/load_tree401.py`: execute the
body's statements; `conn.commit()` on success, `conn.rollback()` in the
`except:` handler. -/
def script401 (vid ascVid : Int) (doc : RawDoc) : List Op :=
  let r := body401 vid ascVid doc
  r.1.map Op.exec ++ [match r.2 with | none => Op.commit | some _ => Op.rollback]

/-- Model of `main` of `scripts/load_tree401.py`, from the point of view of the
connection (`tree_etl.load_tree` has the same try/commit/rollback shape). -/
def main401 (c : Conn) (vid ascVid : Int) (doc : RawDoc) : Conn :=
  runOps c (script401 vid ascVid doc)

/-- Edge rows contained in a list of executed statements (the whole row is
the conflict key, so the table is a set of ordered pairs). -/
def edgeSetOf (ws : List Write) : Finset (Int × Int) :=
  ws.foldr (fun w s => match w with | .edge a b _ => insert (a, b) s | _ => s) ∅

/-- The `node_edges` content for one version after `load_edges` followed by
the `mirror_edges` pass. -/
def finalEdges (vid : Int) (doc : RawDoc) : Finset (Int × Int) :=
  mirror_edges (edgeSetOf (loadEdges401 vid doc.nodes))

/-! ## `parse_poe2_tree` connection cleaning -/

/-- The connection-cleaning loop of `scripts/parse_poe2_tree.py`: drop
self-loops, clamp the sentinel radius `2147483647` to `0`, keep everything
else; the parser's output has no anomaly ledger at all. -/
def cleanConns (nid : Int) (conns : List RawConn) : List (Int × Int) :=
  conns.filterMap (fun c =>
    if c.cid = nid then none
    else some (c.cid, if c.crad = 2147483647 then 0 else c.crad))

/-! ## Path optimizer (`src/api/optimizer.py`) -/

/-- A goal's criteria record in `GOAL_CRITERIA`. -/
structure Criteria where
  patterns : List String
  weights : List (String × ℚ)
deriving DecidableEq, Repr

/-- The `GOAL_CRITERIA` table: goal label → stat-key patterns and metric weights. -/
def GOAL_CRITERIA : List (String × Criteria) :=
  [("tanky",
     { patterns := ["Life", "Armour", "Energy Shield", "Resistance"],
       weights := [("life", 0.6), ("armor", 0.3), ("eshield", 0.1)] }),
   ("bossing",
     { patterns := ["Damage", "Crit"],
       weights := [("Lightning Damage", 0.4), ("Projectile Damage", 0.3),
                   ("crit_chance", 0.3)] }),
   ("speed",
     { patterns := ["Movement Speed", "Attack Speed"],
       weights := [("speed", 0.7), ("attack_speed", 0.3)] })]

/-- Python dict assignment `weights[pat] = v` on an insertion-ordered
association list: overwrite in place if the key exists, else append. -/
def dictSet (l : List (String × ℚ)) (k : String) (v : ℚ) : List (String × ℚ) :=
  if l.any (fun p => p.1 = k) then
    l.map (fun p => if p.1 = k then (k, v) else p)
  else l ++ [(k, v)]

/-- Model of `build_stat_weights`: flat pattern → weight map (weight `1.0` per
pattern); goals with no `GOAL_CRITERIA` entry are silently skipped. -/
def build_stat_weights (goals : List String) : List (String × ℚ) :=
  goals.foldl (fun ws g =>
    match GOAL_CRITERIA.lookup (strLowerS g) with
    | none => ws
    | some c => c.patterns.foldl (fun ws2 pat => dictSet ws2 pat 1) ws) []

/-- Model of `re.search(pat, key, re.IGNORECASE)` for the patterns occurring in
`GOAL_CRITERIA`: they contain no regex metacharacters, so the search is a
case-insensitive substring test. -/
def reSearchCI (pat key : String) : Bool :=
  strContainsS (strLowerS key) (strLowerS pat)

/-- Model of `node_score`: goal-weighted sum over the node's static effects and its
parsed modifiers (modifier ranges averaged; `None` bounds via `mn or 0`). -/
def node_score (node_id : Int)
    (node_effects : List (Int × List (String × ℚ)))
    (parsed_mods : List (Int × List (String × Option ℚ × Option ℚ × Bool)))
    (stat_weights : List (String × ℚ)) : ℚ :=
  let effects := (node_effects.lookup node_id).getD []
  let mods := (parsed_mods.lookup node_id).getD []
  let s1 := effects.foldl (fun s kv =>
    stat_weights.foldl (fun s2 pw =>
      if reSearchCI pw.1 kv.1 then s2 + kv.2 * pw.2 else s2) s) 0
  mods.foldl (fun s m =>
    let avg := match m.2.1, m.2.2.1 with
      | some mn, some mx => (mn + mx) / 2
      | mn, _ => mn.getD 0
    stat_weights.foldl (fun s2 pw =>
      if reSearchCI pw.1 m.1 then s2 + avg * pw.2 else s2) s) s1

/-- Model of `edges.get(n, [])`: adjacency list of a node. -/
def adjOf (edges : List (Int × List Int)) (n : Int) : List Int :=
  (edges.lookup n).getD []

/-- Add an element to a Python set modelled as a duplicate-free list in
insertion order. -/
def setAdd (l : List Int) (x : Int) : List Int :=
  if x ∈ l then l else l ++ [x]

/-- Model of `frontier = set(edges.get(start_node, [])) - selected` with
`selected = {start_node}`. -/
def initFrontier (edges : List (Int × List Int)) (start : Int) : List Int :=
  ((adjOf edges start).filter (fun n => n ≠ start)).foldl setAdd []

/-- The inner `for node in list(frontier)` scan: first frontier node whose
score strictly exceeds the best so far (initially `0.0`), so the result is
`none` exactly when no frontier node scores positively. -/
def pickBest (fr : List Int)
    (node_effects : List (Int × List (String × ℚ)))
    (parsed_mods : List (Int × List (String × Option ℚ × Option ℚ × Bool)))
    (stat_weights : List (String × ℚ)) : Option Int × ℚ :=
  fr.foldl (fun acc node =>
    let s := node_score node node_effects parsed_mods stat_weights
    if acc.2 < s then (some node, s) else acc) (none, 0)

/-- The greedy `while` loop of `optimize_path`.  The loop runs while
`len(path) < max_points` and the frontier is non-empty, and each iteration
appends exactly one node, so `fuel = max_points - len(path)` at entry gives
an exact model.  Returns `(selected, path, frontier)`. -/
def greedyAux (edges : List (Int × List Int))
    (node_effects : List (Int × List (String × ℚ)))
    (parsed_mods : List (Int × List (String × Option ℚ × Option ℚ × Bool)))
    (stat_weights : List (String × ℚ)) :
    Nat → List Int → List Int → List Int → List Int × List Int × List Int
  | 0, sel, path, fr => (sel, path, fr)
  | fuel + 1, sel, path, fr =>
    if fr = [] then (sel, path, fr)
    else
      match pickBest fr node_effects parsed_mods stat_weights with
      | (none, _) => (sel, path, fr)
      | (some best, _) =>
        let sel' := best :: sel
        let fr' := ((adjOf edges best).filter (fun n => ¬ n ∈ sel')).foldl
          setAdd (fr.erase best)
        greedyAux edges node_effects parsed_mods stat_weights fuel
          sel' (path ++ [best]) fr'

/-- Model of `optimize_path`: greedy frontier expansion from the start node, then
the ascendancy ids appended verbatim while budget remains.  The `nodes`
argument is accepted and unused, as in the source.  `max_points` is a
`Nat`; a negative Python budget behaves exactly like `0` (the loop guard
and the append guard are both comparisons against `len(path) ≥ 1`). -/
def optimize_path (nodes : List Int) (edges : List (Int × List Int))
    (node_effects : List (Int × List (String × ℚ)))
    (parsed_mods : List (Int × List (String × Option ℚ × Option ℚ × Bool)))
    (start_node : Int) (ascendancy_nodes : List Int)
    (goals : List String) (max_points : Nat) : List Int :=
  let stat_weights := build_stat_weights goals
  let r := greedyAux edges node_effects parsed_mods stat_weights
    (max_points - 1) [start_node] [start_node] (initFrontier edges start_node)
  let path := r.2.1
  if ¬ ascendancy_nodes.isEmpty ∧ path.length < max_points then
    path ++ ascendancy_nodes.take (max_points - path.length)
  else path

/-- The greedy portion of the output path (everything `optimize_path`
produces before the ascendancy appendix). -/
def greedyPath (edges : List (Int × List Int))
    (node_effects : List (Int × List (String × ℚ)))
    (parsed_mods : List (Int × List (String × Option ℚ × Option ℚ × Bool)))
    (start_node : Int) (goals : List String) (max_points : Nat) : List Int :=
  (greedyAux edges node_effects parsed_mods (build_stat_weights goals)
    (max_points - 1) [start_node] [start_node] (initFrontier edges start_node)).2.1

/-- Undirected neighborhood in the adjacency map handed to the optimizer. -/
def isNeighbor (edges : List (Int × List Int)) (a b : Int) : Bool :=
  (adjOf edges a).contains b || (adjOf edges b).contains a

/-- Connectivity of a selection: every path entry after the first has an
earlier entry as graph neighbor. -/
def ConnectedFrom (edges : List (Int × List Int)) (path : List Int) : Prop :=
  ∀ i : Fin path.length, 0 < i.1 →
    ∃ j : Fin path.length, j.1 < i.1 ∧
      isNeighbor edges (path.get j) (path.get i) = true

instance (edges : List (Int × List Int)) (path : List Int) :
    Decidable (ConnectedFrom edges path) := by
  unfold ConnectedFrom; infer_instance



/-! ## Concrete fixtures used by witnesses and counterexamples -/

/-- A document whose single node carries one one-directional connection. -/
def docOneWay : RawDoc :=
  { nodes := [(1, { connections := [RawConn.bare 2] })] }

/-- A document whose first node has no resolvable position and whose second
node is fully well-formed. -/
def docMissingPos : RawDoc :=
  { nodes := [(1, {}), (2, { position := .pdict (some 10) (some 20) })] }

/-- A document with a raw self-loop connection on node 1 (plus a normal
connection to node 2); both nodes have resolvable positions. -/
def docSelfLoop : RawDoc :=
  { nodes := [(1, { position := .pdict (some 0) (some 0),
                    connections := [RawConn.bare 1, RawConn.bare 2] }),
              (2, { position := .pdict (some 1) (some 1) })] }

/-- A document with a sentinel-radius (2147483647) connection from node 1
to node 2. -/
def docSentinel : RawDoc :=
  { nodes := [(1, { position := .pdict (some 0) (some 0),
                    connections := [RawConn.conn 2 (some 2147483647)] }),
              (2, { position := .pdict (some 1) (some 1) })] }

/-- A connection over a store already holding one committed row. -/
def connW : Conn :=
  { durable := [Write.rawTree 1], pending := [Write.rawTree 1] }

/-! # Theorems -/

theorem mem_mirror_edges (E : Finset (Int × Int)) (p : Int × Int) :
    p ∈ mirror_edges E ↔ p ∈ E ∨ p.swap ∈ E := by
  unfold mirror_edges
  simp only [Finset.mem_union, Finset.mem_filter, Finset.mem_image]
  constructor
  · rintro (h | ⟨⟨q, hq, rfl⟩, -⟩)
    · exact Or.inl h
    · exact Or.inr (by simpa using hq)
  · rintro (h | h)
    · exact Or.inl h
    · by_cases hp : p ∈ E
      · exact Or.inl hp
      · exact Or.inr ⟨⟨p.swap, h, by simp⟩, hp⟩

theorem mirror_edges_symm {E : Finset (Int × Int)} {a b : Int}
    (h : (a, b) ∈ mirror_edges E) : (b, a) ∈ mirror_edges E := by
  rw [mem_mirror_edges] at h ⊢
  simpa [Prod.swap, or_comm] using h

theorem mirror_edges_idem (E : Finset (Int × Int)) :
    mirror_edges (mirror_edges E) = mirror_edges E := by
  ext p
  simp only [mem_mirror_edges]
  constructor
  · rintro (h | h)
    · exact h
    · simpa [or_comm] using h
  · exact Or.inl

/-- Sanity check: one mirroring pass on a single one-directional edge. -/
theorem mirror_edges_single_check :
    mirror_edges {(1, 2)} = ({(1, 2), (2, 1)} : Finset (Int × Int)) := by decide

/-- Sanity check: the optimizer always emits the start node first. -/
theorem optimize_path_zero_budget_check :
    optimize_path [] [] [] [] 0 [] [] 0 = [0] := by decide
/-- Sanity check: ascendancy ids are appended verbatim while budget remains. -/
theorem optimize_path_appendix_check :
    optimize_path [] [] [] [] 0 [5] [] 2 = [0, 5] := by decide

/-! ## Support lemmas: set-as-list operations -/

theorem setAdd_mem {l : List Int} {x y : Int} :
    x ∈ setAdd l y ↔ x ∈ l ∨ x = y := by
  by_cases h : y ∈ l
  · simp only [setAdd, if_pos h]
    constructor
    · exact Or.inl
    · rintro (h' | rfl)
      · exact h'
      · exact h
  · simp [setAdd, if_neg h]

theorem setAdd_nodup {l : List Int} (h : l.Nodup) (y : Int) :
    (setAdd l y).Nodup := by
  unfold setAdd
  split_ifs with hy
  · exact h
  · exact h.append (List.nodup_singleton y) (List.disjoint_singleton.mpr hy)


theorem foldl_setAdd_mem (l : List Int) :
    ∀ (init : List Int) (x : Int), x ∈ l.foldl setAdd init ↔ x ∈ init ∨ x ∈ l := by
  induction l with
  | nil => simp
  | cons a t ih =>
    intro init x
    simp only [List.foldl_cons, ih, setAdd_mem, List.mem_cons]
    tauto

theorem foldl_setAdd_nodup (l : List Int) :
    ∀ init : List Int, init.Nodup → (l.foldl setAdd init).Nodup := by
  induction l with
  | nil => exact fun _ h => h
  | cons a t ih => exact fun init h => ih _ (setAdd_nodup h a)

theorem pickBest_mem {fr : List Int}
    {e : List (Int × List (String × ℚ))}
    {m : List (Int × List (String × Option ℚ × Option ℚ × Bool))}
    {w : List (String × ℚ)} {b : Int}
    (h : (pickBest fr e m w).1 = some b) : b ∈ fr := by
  have aux : ∀ (l : List Int) (acc : Option Int × ℚ),
      ((l.foldl (fun acc node =>
        let s := node_score node e m w
        if acc.2 < s then (some node, s) else acc) acc).1 = some b) →
      acc.1 = some b ∨ b ∈ l := by
    intro l
    induction l with
    | nil => exact fun acc h => Or.inl h
    | cons x t ih =>
      intro acc h
      rcases ih _ h with h' | h'
      · dsimp only at h'
        split at h'
        · simp only [Option.some.injEq] at h'
          exact Or.inr (by simp [h'])
        · exact Or.inl h'
      · exact Or.inr (List.mem_cons_of_mem _ h')
  rcases aux fr (none, 0) h with h' | h'
  · cases h'
  · exact h'

/-! ## Support lemmas: connectivity of a growing path -/

theorem connectedFrom_nil (edges : List (Int × List Int)) :
    ConnectedFrom edges [] := by
  intro i
  exact absurd i.2 (by simp)

theorem connectedFrom_singleton (edges : List (Int × List Int)) (a : Int) :
    ConnectedFrom edges [a] := by
  intro i hi
  have h1 : i.1 < 1 := by simpa using i.2
  exact absurd hi (by omega)

theorem connectedFrom_append (edges : List (Int × List Int))
    {path : List Int} {b : Int}
    (h : ConnectedFrom edges path)
    (hw : ∃ w ∈ path, isNeighbor edges w b = true) :
    ConnectedFrom edges (path ++ [b]) := by
  intro i hi
  by_cases hcase : i.1 < path.length
  · -- index falls inside the old path: reuse its witness
    obtain ⟨j, hj, hnb⟩ := h ⟨i.1, hcase⟩ hi
    have hjlt : j.1 < (path ++ [b]).length := by
      simp only [List.length_append, List.length_singleton]
      omega
    refine ⟨⟨j.1, hjlt⟩, hj, ?_⟩
    simp only [List.get_eq_getElem] at hnb ⊢
    rw [List.getElem_append_left j.2, List.getElem_append_left hcase]
    exact hnb
  · -- index is the appended element b: use the supplied neighbor
    have hi_eq : i.1 = path.length := by
      have h2 := i.2
      simp only [List.length_append, List.length_singleton] at h2
      omega
    obtain ⟨w, hwmem, hnb⟩ := hw
    obtain ⟨n, hn, hget⟩ := List.mem_iff_getElem.mp hwmem
    have hnlt : n < (path ++ [b]).length := by
      simp only [List.length_append, List.length_singleton]
      omega
    refine ⟨⟨n, hnlt⟩, show n < i.1 by omega, ?_⟩
    simp only [List.get_eq_getElem]
    rw [List.getElem_append_left hn, hget,
        List.getElem_concat_length path b i.1 hi_eq]
    exact hnb

/-! ## Support lemmas: the greedy loop -/

theorem initFrontier_mem (edges : List (Int × List Int)) (start f : Int) :
    f ∈ initFrontier edges start ↔ f ∈ adjOf edges start ∧ f ≠ start := by
  unfold initFrontier
  rw [foldl_setAdd_mem]
  simp [List.mem_filter]

theorem initFrontier_nodup (edges : List (Int × List Int)) (start : Int) :
    (initFrontier edges start).Nodup :=
  foldl_setAdd_nodup _ _ List.nodup_nil

theorem greedyAux_length (edges : List (Int × List Int))
    (e : List (Int × List (String × ℚ)))
    (m : List (Int × List (String × Option ℚ × Option ℚ × Bool)))
    (w : List (String × ℚ)) :
    ∀ (fuel : Nat) (sel path fr : List Int),
      (greedyAux edges e m w fuel sel path fr).2.1.length ≤ path.length + fuel := by
  intro fuel
  induction fuel with
  | zero => intro sel path fr; simp [greedyAux]
  | succ fuel ih =>
    intro sel path fr
    rw [greedyAux]
    by_cases hfr : fr = []
    · simp [if_pos hfr]
    · rw [if_neg hfr]
      rcases hpb : pickBest fr e m w with ⟨best, score⟩
      cases best with
      | none => simp
      | some b =>
        dsimp only
        refine le_trans (ih _ _ _) ?_
        simp only [List.length_append, List.length_singleton]
        omega

/-- Master invariant of the greedy `while` loop: starting from a non-empty,
duplicate-free path contained in the selected set, with a duplicate-free
frontier disjoint from the selected set whose members are all adjacency-
successors of path members, the loop's final path is non-empty,
duplicate-free and connected-from-the-start. -/
theorem greedyAux_inv (edges : List (Int × List Int))
    (e : List (Int × List (String × ℚ)))
    (m : List (Int × List (String × Option ℚ × Option ℚ × Bool)))
    (w : List (String × ℚ)) :
    ∀ (fuel : Nat) (sel path fr : List Int),
      path ≠ [] →
      path.Nodup →
      (∀ p ∈ path, p ∈ sel) →
      (∀ f ∈ fr, f ∉ sel) →
      fr.Nodup →
      (∀ f ∈ fr, ∃ v ∈ path, f ∈ adjOf edges v) →
      ConnectedFrom edges path →
      (greedyAux edges e m w fuel sel path fr).2.1 ≠ [] ∧
      (greedyAux edges e m w fuel sel path fr).2.1.Nodup ∧
      ConnectedFrom edges (greedyAux edges e m w fuel sel path fr).2.1 := by
  intro fuel
  induction fuel with
  | zero =>
    intro sel path fr h1 h2 _ _ _ _ h7
    exact ⟨h1, h2, h7⟩
  | succ fuel ih =>
    intro sel path fr h1 h2 h3 h4 h5 h6 h7
    rw [greedyAux]
    by_cases hfr : fr = []
    · rw [if_pos hfr]
      exact ⟨h1, h2, h7⟩
    · rw [if_neg hfr]
      rcases hpb : pickBest fr e m w with ⟨best, score⟩
      cases best with
      | none => exact ⟨h1, h2, h7⟩
      | some b =>
        dsimp only
        have hbfr : b ∈ fr := pickBest_mem (by rw [hpb])
        have hbsel : b ∉ sel := h4 b hbfr
        have hbpath : b ∉ path := fun hmem => hbsel (h3 b hmem)
        -- invariants for the next iteration
        have h1' : path ++ [b] ≠ [] := by simp
        have h2' : (path ++ [b]).Nodup :=
          h2.append (List.nodup_singleton b) (List.disjoint_singleton.mpr hbpath)
        have h3' : ∀ p ∈ path ++ [b], p ∈ b :: sel := by
          intro p hp
          rcases List.mem_append.mp hp with hp | hp
          · exact List.mem_cons_of_mem _ (h3 p hp)
          · simp only [List.mem_singleton] at hp
            simp [hp]
        have hfrmem : ∀ f,
            f ∈ ((adjOf edges b).filter (fun n => ¬ n ∈ b :: sel)).foldl
              setAdd (fr.erase b) →
            f ∈ fr.erase b ∨ (f ∈ adjOf edges b ∧ f ∉ b :: sel) := by
          intro f hf
          rcases (foldl_setAdd_mem _ _ _).mp hf with hf | hf
          · exact Or.inl hf
          · simp only [List.mem_filter, decide_not, Bool.not_eq_eq_eq_not,
              Bool.not_true, decide_eq_false_iff_not] at hf
            exact Or.inr hf
        have h4' : ∀ f ∈ ((adjOf edges b).filter (fun n => ¬ n ∈ b :: sel)).foldl
            setAdd (fr.erase b), f ∉ b :: sel := by
          intro f hf
          rcases hfrmem f hf with hf | hf
          · have hne := (h5.mem_erase_iff.mp hf).1
            have hmem := (h5.mem_erase_iff.mp hf).2
            simp only [List.mem_cons]
            rintro (rfl | hc)
            · exact hne rfl
            · exact h4 f hmem hc
          · exact hf.2
        have h5' : (((adjOf edges b).filter (fun n => ¬ n ∈ b :: sel)).foldl
            setAdd (fr.erase b)).Nodup :=
          foldl_setAdd_nodup _ _ (h5.erase b)
        have h6' : ∀ f ∈ ((adjOf edges b).filter (fun n => ¬ n ∈ b :: sel)).foldl
            setAdd (fr.erase b), ∃ v ∈ path ++ [b], f ∈ adjOf edges v := by
          intro f hf
          rcases hfrmem f hf with hf | hf
          · obtain ⟨v, hv, hadj⟩ := h6 f (List.mem_of_mem_erase hf)
            exact ⟨v, List.mem_append_left _ hv, hadj⟩
          · exact ⟨b, List.mem_append_right _ (by simp), hf.1⟩
        have h7' : ConnectedFrom edges (path ++ [b]) := by
          obtain ⟨v, hv, hadj⟩ := h6 b hbfr
          refine connectedFrom_append edges h7 ⟨v, hv, ?_⟩
          simp only [isNeighbor, Bool.or_eq_true]
          exact Or.inl (by simpa using hadj)
        exact ih _ _ _ h1' h2' h3' h4' h5' h6' h7'

/-! ## Claim C1: symmetry and fixed point of the mirroring pass -/

/-- C1: for every version the edge set produced by `load_edges` followed by
the `mirror_edges` pass is symmetric — if (A,B) is present then (B,A) is
present — and the mirroring pass is a fixed point: running it a second time
on its own output adds no edge. -/
theorem claim_C1_mirror_symmetry_fixed_point (vid : Int) (doc : RawDoc) :
    (∀ a b : Int, (a, b) ∈ finalEdges vid doc → (b, a) ∈ finalEdges vid doc) ∧
    mirror_edges (finalEdges vid doc) = finalEdges vid doc := by
  constructor
  · intro a b h
    exact mirror_edges_symm h
  · exact mirror_edges_idem _

/-- Witness for C1 at a concrete one-directional document. -/
theorem claim_C1_mirror_symmetry_fixed_point_witness :
    (2, 1) ∈ finalEdges 1 docOneWay ∧
    mirror_edges (finalEdges 1 docOneWay) = finalEdges 1 docOneWay :=
  ⟨(claim_C1_mirror_symmetry_fixed_point 1 docOneWay).1 1 2 (by decide),
   (claim_C1_mirror_symmetry_fixed_point 1 docOneWay).2⟩

/-! ## Claim C5: keystone beats notable in classification -/

/-- C5: a node whose catalog entry has both the keystone and the notable
flag set (and whose skill reference is not ascendancy-prefixed) classifies
as Keystone and never Notable, in all three classifier copies of the
source; each classifier is a total function, so the first-match-wins
priority order is deterministic. -/
theorem claim_C5_keystone_beats_notable (sid : String) (det : SkillDetails)
    (n : LoaderNode)
    (hk : det.is_keystone = true) (hn : det.is_notable = true)
    (ha : strStartsWithS sid "Ascendancy" = false)
    (lk : n.isKeystone = true) (ln : n.isNotable = true)
    (la : n.ascendancyName = none) :
    (compute_node_type sid det = "Keystone" ∧
      compute_node_type sid det ≠ "Notable") ∧
    parse_node_type sid det = "Keystone" ∧
    (compute_node_type_loader n = "Keystone" ∧
      compute_node_type_loader n ≠ "Notable") := by
  refine ⟨⟨?_, ?_⟩, ?_, ?_, ?_⟩ <;>
    simp [compute_node_type, parse_node_type, compute_node_type_loader,
      pyTruthyStr, hk, hn, ha, lk, ln, la]

/-- Witness for C5 at a concrete double-flagged catalog entry. -/
theorem claim_C5_keystone_beats_notable_witness :
    (compute_node_type "X" { is_keystone := true, is_notable := true }
        = "Keystone" ∧
      compute_node_type "X" { is_keystone := true, is_notable := true }
        ≠ "Notable") ∧
    parse_node_type "X" { is_keystone := true, is_notable := true }
        = "Keystone" ∧
    (compute_node_type_loader { isKeystone := true, isNotable := true }
        = "Keystone" ∧
      compute_node_type_loader { isKeystone := true, isNotable := true }
        ≠ "Notable") :=
  claim_C5_keystone_beats_notable "X" _ _ rfl rfl (by decide) rfl rfl rfl

/-! ## Claim C4: transaction rollback on failure -/

theorem foldl_exec_durable (ws : List Write) :
    ∀ c : Conn, ((ws.map Op.exec).foldl applyOp c).durable = c.durable := by
  induction ws with
  | nil => intro c; rfl
  | cons w t ih =>
    intro c
    rw [List.map_cons, List.foldl_cons]
    exact ih _

/-- C4: if the load body raises, `main` rolls the transaction back before
the connection closes, so the durable store the readers see is exactly what
it was before the run — no partially written version is ever visible. -/
theorem claim_C4_rollback_on_failure (c : Conn) (vid ascVid : Int)
    (doc : RawDoc) (h : (body401 vid ascVid doc).2.isSome = true) :
    (main401 c vid ascVid doc).durable = c.durable := by
  obtain ⟨e, he⟩ := Option.isSome_iff_exists.mp h
  have hscript : script401 vid ascVid doc
      = (body401 vid ascVid doc).1.map Op.exec ++ [Op.rollback] := by
    simp only [script401]
    rw [he]
  unfold main401 runOps
  rw [hscript, List.foldl_append]
  show (applyOp ((((body401 vid ascVid doc).1.map Op.exec).foldl applyOp c))
    Op.rollback).durable = c.durable
  rw [applyOp]
  exact foldl_exec_durable _ c

/-- Witness for C4: a document whose load aborts (missing position) leaves
the pre-existing durable store untouched. -/
theorem claim_C4_rollback_on_failure_witness :
    (body401 5 6 docMissingPos).2.isSome = true ∧
    (main401 connW 5 6 docMissingPos).durable = connW.durable :=
  ⟨by decide, claim_C4_rollback_on_failure connW 5 6 docMissingPos (by decide)⟩

/-! ## Claims C2/C8: the edge-error ledger is never written -/

theorem loadNodes401_no_edgeErr (vid : Int)
    (skills : List (String × SkillDetails)) (groups : List (Int × GroupRec)) :
    ∀ (ns : List (Int × RawNode)) (w : Write),
      w ∈ (loadNodes401 vid skills groups ns).1 → w.isEdgeErr = false := by
  intro ns
  induction ns with
  | nil =>
    intro w hw
    simp [loadNodes401] at hw
  | cons p t ih =>
    intro w hw
    obtain ⟨nid, n⟩ := p
    rw [loadNodes401] at hw
    revert hw
    cases hpos : extract_position401 n groups with
    | error e =>
      intro hw
      dsimp only at hw
      rcases List.mem_append.mp hw with hw | hw
      · split_ifs at hw with hc
        · simp only [List.mem_singleton] at hw
          subst hw
          rfl
        · simp at hw
      · simp only [List.mem_singleton] at hw
        subst hw
        rfl
    | ok xy =>
      obtain ⟨x, y⟩ := xy
      intro hw
      dsimp only at hw
      rcases List.mem_append.mp hw with hw | hw
      · split_ifs at hw with hc
        · simp only [List.mem_singleton] at hw
          subst hw
          rfl
        · simp at hw
      · rcases List.mem_cons.mp hw with hw | hw
        · subst hw
          rfl
        · exact ih w hw

theorem loadEdges401_no_edgeErr (vid : Int) (ns : List (Int × RawNode))
    (w : Write) (hw : w ∈ loadEdges401 vid ns) : w.isEdgeErr = false := by
  simp only [loadEdges401, List.mem_flatMap, List.mem_map] at hw
  obtain ⟨p, -, c, -, rfl⟩ := hw
  rfl

theorem loadEffects401_no_edgeErr (vid : Int)
    (skills : List (String × SkillDetails)) (ns : List (Int × RawNode))
    (w : Write) (hw : w ∈ loadEffects401 vid skills ns) : w.isEdgeErr = false := by
  simp only [loadEffects401, List.mem_flatMap, List.mem_map] at hw
  obtain ⟨p, -, st, -, rfl⟩ := hw
  cases st <;> rfl

theorem loadStarting401_no_edgeErr (vid : Int) (doc : RawDoc)
    (w : Write) (hw : w ∈ loadStarting401 vid doc) : w.isEdgeErr = false := by
  simp only [loadStarting401, List.mem_filterMap] at hw
  obtain ⟨nid, -, heq⟩ := hw
  split at heq
  · exact absurd heq (by simp)
  · simp only [Option.some.injEq] at heq
    subst heq
    rfl

theorem loadAsc401_no_edgeErr (ascVid : Int) (doc : RawDoc)
    (w : Write) (hw : w ∈ loadAsc401 ascVid doc) : w.isEdgeErr = false := by
  simp only [loadAsc401, List.mem_filterMap] at hw
  obtain ⟨p, -, heq⟩ := hw
  split at heq
  · split at heq
    · exact absurd heq (by simp)
    · simp only [Option.some.injEq] at heq
      subst heq
      rfl
  · exact absurd heq (by simp)

/-- No statement the pipeline body ever executes inserts into the
`edge_errors` ledger: the `EDGE_ERROR_SQL` template is declared but never
run. -/
theorem body401_no_edgeErr (vid ascVid : Int) (doc : RawDoc) :
    ∀ w ∈ (body401 vid ascVid doc).1, w.isEdgeErr = false := by
  intro w hw
  simp only [body401] at hw
  split at hw <;>
    simp only [List.append_assoc, List.mem_append, List.mem_cons,
      List.mem_singleton, List.not_mem_nil, or_false, false_or] at hw
  · rcases hw with (rfl | rfl | rfl) | hw
    · rfl
    · rfl
    · rfl
    · exact loadNodes401_no_edgeErr _ _ _ _ w hw
  · rcases hw with (rfl | rfl | rfl) | hw | hw | rfl | hw | hw | hw
    · rfl
    · rfl
    · rfl
    · exact loadNodes401_no_edgeErr _ _ _ _ w hw
    · exact loadEdges401_no_edgeErr _ _ w hw
    · rfl
    · exact loadEffects401_no_edgeErr _ _ _ w hw
    · exact loadStarting401_no_edgeErr _ _ w hw
    · exact loadAsc401_no_edgeErr _ _ w hw

/-- C2 (refutation of the claim on the code): the pipeline writes no
`edge_errors` row on any input (so no self-loop is ever recorded in the
ledger), and on a document with a raw self-loop connection the loader
creates the (1,1) edge verbatim. -/
theorem claim_C2_self_loop_kept_and_unledgered :
    (∀ (vid ascVid : Int) (doc : RawDoc),
      ((body401 vid ascVid doc).1.all (fun w => ! w.isEdgeErr)) = true) ∧
    Write.edge 1 1 5 ∈ (body401 5 6 docSelfLoop).1 := by
  constructor
  · intro vid ascVid doc
    rw [List.all_eq_true]
    intro w hw
    simp [body401_no_edgeErr vid ascVid doc w hw]
  · decide

/-- C8 (refutation of the anomaly-entry part on the code): the
`parse_poe2_tree` cleaning pass clamps the sentinel radius to 0 and keeps
the edge, the DB loader also creates the edge, but no outlier-radius
anomaly entry is recorded anywhere — the ledger write count is zero, not
one. -/
theorem claim_C8_sentinel_clamped_edge_kept_unledgered :
    cleanConns 1 [RawConn.conn 2 (some 2147483647)] = [(2, 0)] ∧
    Write.edge 1 2 5 ∈ (body401 5 6 docSentinel).1 ∧
    ((body401 5 6 docSentinel).1.all (fun w => ! w.isEdgeErr)) = true := by
  refine ⟨by decide, by decide, ?_⟩
  rw [List.all_eq_true]
  intro w hw
  simp [body401_no_edgeErr 5 6 docSentinel w hw]

/-! ## Claim C3: missing position aborts the load instead of skipping -/

/-- C3 (refutation on the code): on a document whose node 1 has no
resolvable position and whose node 2 is fine, `load_nodes` records the
`missing_position` NodeError and then re-raises — the returned exception
aborts the run and node 2 is never emitted, contradicting the skip-and-
continue claim; the `tree_loader` copy instead resolves the same node to
(0,0) and never excludes it. -/
theorem claim_C3_missing_position_aborts_run :
    loadNodes401 7 docMissingPos.skills docMissingPos.groups docMissingPos.nodes
      = ([Write.nodeError 7 1 "missing_position"], some ()) ∧
    extract_position_loader {} [] = (0, 0) ∧
    (main401 connW 7 8 docMissingPos).durable = connW.durable := by
  refine ⟨by decide, by decide, by decide⟩

/-! ## Claims C6/C7/C9: the greedy optimizer -/

/-- Initial invariants instantiated: the greedy portion of the output path
is non-empty, duplicate-free and connected from the start. -/
theorem greedyPath_inv (edges : List (Int × List Int))
    (e : List (Int × List (String × ℚ)))
    (m : List (Int × List (String × Option ℚ × Option ℚ × Bool)))
    (start : Int) (goals : List String) (mp : Nat) :
    greedyPath edges e m start goals mp ≠ [] ∧
    (greedyPath edges e m start goals mp).Nodup ∧
    ConnectedFrom edges (greedyPath edges e m start goals mp) := by
  refine greedyAux_inv edges e m (build_stat_weights goals) (mp - 1)
    [start] [start] (initFrontier edges start)
    (by simp) (List.nodup_singleton _) (by simp) ?_
    (initFrontier_nodup _ _) ?_ (connectedFrom_singleton _ _)
  · intro f hf
    have h := (initFrontier_mem edges start f).mp hf
    simp [h.2]
  · intro f hf
    have h := (initFrontier_mem edges start f).mp hf
    exact ⟨start, by simp, h.1⟩

/-- C6 counterexample: with `maxPoints = 0` the output still contains the
start node, so its length exceeds the budget. -/
theorem claim_C6_budget_counterexample :
    ¬ (optimize_path [] [] [] [] 0 [] [] 0).length ≤ 0 := by decide

/-- C6 (amended): for every budget of at least one point, the length of the
path returned by `optimize_path` never exceeds `maxPoints`. -/
theorem claim_C6_budget_respected (nodes : List Int)
    (edges : List (Int × List Int))
    (e : List (Int × List (String × ℚ)))
    (m : List (Int × List (String × Option ℚ × Option ℚ × Bool)))
    (start : Int) (asc : List Int) (goals : List String) (mp : Nat)
    (h : 1 ≤ mp) :
    (optimize_path nodes edges e m start asc goals mp).length ≤ mp := by
  have hlen : (greedyPath edges e m start goals mp).length ≤ 1 + (mp - 1) := by
    simpa using greedyAux_length edges e m (build_stat_weights goals)
      (mp - 1) [start] [start] (initFrontier edges start)
  show (if ¬ asc.isEmpty ∧ (greedyPath edges e m start goals mp).length < mp
      then greedyPath edges e m start goals mp
        ++ asc.take (mp - (greedyPath edges e m start goals mp).length)
      else greedyPath edges e m start goals mp).length ≤ mp
  split_ifs with hc
  · have htk : (asc.take (mp - (greedyPath edges e m start goals mp).length)).length
        ≤ mp - (greedyPath edges e m start goals mp).length := by
      simp [List.length_take]
    simp only [List.length_append]
    omega
  · omega

/-- Witness for the amended C6 at budget 1. -/
theorem claim_C6_budget_respected_witness :
    1 ≤ 1 ∧ (optimize_path [] [] [] [] 0 [5] [] 1).length ≤ 1 :=
  ⟨le_refl 1, claim_C6_budget_respected [] [] [] [] 0 [5] [] 1 (le_refl 1)⟩

/-- C7 counterexample: an appended ascendancy node need not be a neighbor
of any earlier path node — the claim fails on the full output path. -/
theorem claim_C7_connectivity_counterexample :
    ¬ ConnectedFrom [] (optimize_path [] [] [] [] 0 [5] [] 2) := by decide

/-- C7 (amended): every node of the greedily-selected prefix of the output
other than the start node has at least one earlier path node as graph
neighbor; the prefix is exactly what `optimize_path` returns before the
ascendancy appendix. -/
theorem claim_C7_greedy_prefix_connected (nodes : List Int)
    (edges : List (Int × List Int))
    (e : List (Int × List (String × ℚ)))
    (m : List (Int × List (String × Option ℚ × Option ℚ × Bool)))
    (start : Int) (asc : List Int) (goals : List String) (mp : Nat) :
    ConnectedFrom edges (greedyPath edges e m start goals mp) ∧
    (optimize_path nodes edges e m start asc goals mp).take
        (greedyPath edges e m start goals mp).length
      = greedyPath edges e m start goals mp := by
  refine ⟨(greedyPath_inv edges e m start goals mp).2.2, ?_⟩
  show (if ¬ asc.isEmpty ∧ (greedyPath edges e m start goals mp).length < mp
      then greedyPath edges e m start goals mp
        ++ asc.take (mp - (greedyPath edges e m start goals mp).length)
      else greedyPath edges e m start goals mp).take
        (greedyPath edges e m start goals mp).length
      = greedyPath edges e m start goals mp
  split_ifs with hc
  · exact List.take_left _ _
  · exact List.take_length _

/-- C9: the greedy prefix of the output has pairwise-distinct node ids for
every input, while the ascendancy appendix is unchecked — a concrete run
duplicates the start node in the full output. -/
theorem claim_C9_greedy_prefix_distinct :
    (∀ (nodes : List Int) (edges : List (Int × List Int))
        (e : List (Int × List (String × ℚ)))
        (m : List (Int × List (String × Option ℚ × Option ℚ × Bool)))
        (start : Int) (asc : List Int) (goals : List String) (mp : Nat),
      (greedyPath edges e m start goals mp).Nodup ∧
      (optimize_path nodes edges e m start asc goals mp).take
          (greedyPath edges e m start goals mp).length
        = greedyPath edges e m start goals mp) ∧
    ¬ (optimize_path [] [] [] [] 0 [0] [] 2).Nodup := by
  constructor
  · intro nodes edges e m start asc goals mp
    constructor
    · exact (greedyPath_inv edges e m start goals mp).2.1
    · show (if ¬ asc.isEmpty ∧ (greedyPath edges e m start goals mp).length < mp
          then greedyPath edges e m start goals mp
            ++ asc.take (mp - (greedyPath edges e m start goals mp).length)
          else greedyPath edges e m start goals mp).take
            (greedyPath edges e m start goals mp).length
          = greedyPath edges e m start goals mp
      split_ifs with hc
      · exact List.take_left _ _
      · exact List.take_length _
  · decide

/-! ## Claim C10: unrecognized goal labels -/

theorem foldl_id_of_step {α : Type} (l : List α) (f : ℚ → α → ℚ)
    (hf : ∀ s a, f s a = s) : ∀ init : ℚ, l.foldl f init = init := by
  induction l with
  | nil => intro init; rfl
  | cons a t ih =>
    intro init
    rw [List.foldl_cons, hf]
    exact ih init

/-- With an empty weight map every node scores exactly zero. -/
theorem node_score_empty_weights (node_id : Int)
    (e : List (Int × List (String × ℚ)))
    (m : List (Int × List (String × Option ℚ × Option ℚ × Bool))) :
    node_score node_id e m [] = 0 := by
  show ((List.lookup node_id m).getD []).foldl _
      (((List.lookup node_id e).getD []).foldl _ (0 : ℚ)) = 0
  exact (foldl_id_of_step _ _ (fun _ _ => rfl) _).trans
    (foldl_id_of_step _ _ (fun _ _ => rfl) _)

/-- With an empty weight map no frontier node ever beats the initial best
score of 0, so the scan returns no winner. -/
theorem pickBest_empty_weights
    (e : List (Int × List (String × ℚ)))
    (m : List (Int × List (String × Option ℚ × Option ℚ × Bool))) :
    ∀ fr : List Int, pickBest fr e m [] = (none, 0) := by
  intro fr
  unfold pickBest
  induction fr with
  | nil => rfl
  | cons x t ih =>
    rw [List.foldl_cons]
    have hstep : (let s := node_score x e m []
        if ((none : Option Int), (0 : ℚ)).2 < s then (some x, s)
        else ((none : Option Int), (0 : ℚ)))
        = ((none : Option Int), (0 : ℚ)) := by
      simp [node_score_empty_weights]
    rw [hstep]
    exact ih

/-- With an empty weight map the greedy loop makes no move at all. -/
theorem greedyAux_empty_weights (edges : List (Int × List Int))
    (e : List (Int × List (String × ℚ)))
    (m : List (Int × List (String × Option ℚ × Option ℚ × Bool))) :
    ∀ (fuel : Nat) (sel path fr : List Int),
      greedyAux edges e m [] fuel sel path fr = (sel, path, fr) := by
  intro fuel
  cases fuel with
  | zero => intro sel path fr; rfl
  | succ fuel =>
    intro sel path fr
    rw [greedyAux]
    by_cases hfr : fr = []
    · rw [if_pos hfr]
    · rw [if_neg hfr, pickBest_empty_weights]

/-- Goals absent from `GOAL_CRITERIA` contribute nothing to the weight
map. -/
theorem build_stat_weights_unknown (goals : List String)
    (h : ∀ g ∈ goals, GOAL_CRITERIA.lookup (strLowerS g) = none) :
    build_stat_weights goals = [] := by
  unfold build_stat_weights
  have aux : ∀ (gs : List String) (acc : List (String × ℚ)),
      (∀ g ∈ gs, GOAL_CRITERIA.lookup (strLowerS g) = none) →
      gs.foldl (fun ws g =>
        match GOAL_CRITERIA.lookup (strLowerS g) with
        | none => ws
        | some c => c.patterns.foldl (fun ws2 pat => dictSet ws2 pat 1) ws) acc
        = acc := by
    intro gs
    induction gs with
    | nil => intro acc _; rfl
    | cons g t ih =>
      intro acc hgs
      rw [List.foldl_cons]
      have hg : GOAL_CRITERIA.lookup (strLowerS g) = none := hgs g (by simp)
      rw [hg]
      exact ih acc (fun x hx => hgs x (List.mem_cons_of_mem _ hx))
  exact aux goals [] h

/-- C10: when every goal label is absent from the goal-criteria table,
`build_stat_weights` returns the empty map (no error is raised), every
frontier node scores 0, and `optimize_path` returns exactly the start node
followed only by the ascendancy padding. -/
theorem claim_C10_unknown_goals_ignored (nodes : List Int)
    (edges : List (Int × List Int))
    (e : List (Int × List (String × ℚ)))
    (m : List (Int × List (String × Option ℚ × Option ℚ × Bool)))
    (start : Int) (asc : List Int) (goals : List String) (mp : Nat)
    (h : ∀ g ∈ goals, GOAL_CRITERIA.lookup (strLowerS g) = none) :
    build_stat_weights goals = [] ∧
    optimize_path nodes edges e m start asc goals mp
      = start :: asc.take (mp - 1) := by
  have hbw := build_stat_weights_unknown goals h
  refine ⟨hbw, ?_⟩
  simp only [optimize_path]
  rw [hbw, greedyAux_empty_weights]
  dsimp only
  by_cases ha : asc.isEmpty
  · have ha' : asc = [] := by simpa using ha
    subst ha'
    simp
  · by_cases hmp : 1 < mp
    · rw [if_pos]
      · simp
      · constructor
        · simpa using ha
        · simpa using hmp
    · rw [if_neg]
      · have h0 : mp - 1 = 0 := by omega
        rw [h0, List.take_zero]
      · rintro ⟨-, hlt⟩
        simp only [List.length_singleton] at hlt
        omega

/-- Witness for C10: the unrecognized goal "dps" yields the empty weight
map and a start-plus-padding path even though the graph has positive
effects. -/
theorem claim_C10_unknown_goals_ignored_witness :
    (∀ g ∈ ["dps"], GOAL_CRITERIA.lookup (strLowerS g) = none) ∧
    build_stat_weights ["dps"] = [] ∧
    optimize_path [] [(0, [1])] [(1, [("Life", 3)])] [] 0 [7, 8] ["dps"] 3
      = 0 :: [7, 8].take (3 - 1) :=
  ⟨by decide,
   (claim_C10_unknown_goals_ignored [] [(0, [1])] [(1, [("Life", 3)])] []
      0 [7, 8] ["dps"] 3 (by decide)).1,
   (claim_C10_unknown_goals_ignored [] [(0, [1])] [(1, [("Life", 3)])] []
      0 [7, 8] ["dps"] 3 (by decide)).2⟩
